import Mathlib

/-!
Verification development for the `modsim` helper layer of the ModSimPy
teaching corpus.  The repository ships the library's test suite
(`tests/test_modsim.py`) and its notebook call-sites, but not `modsim.py`
itself, so every definition of the library layer below is modelled from the
specification (and is kept consistent with the behaviours the test suite
asserts).  Python floats are embedded as exact rationals where the code is
exact arithmetic, and as real numbers where the code calls `sqrt`/`arctan2`.
-/

/-- Modelled from the spec: a physical unit tag from the external units
engine.  Multiplication and division compose units; the spec's test
vocabulary only needs powers of the base units meter and second, so a unit
is an exponent vector over those two bases.  The all-zero vector is the
dimensionless marker for bare numbers. -/
structure MUnit where
  m : ℤ
  s : ℤ
deriving DecidableEq

def MUnit.one : MUnit := ⟨0, 0⟩

def MUnit.mul (a b : MUnit) : MUnit := ⟨a.m + b.m, a.s + b.s⟩

def MUnit.div (a b : MUnit) : MUnit := ⟨a.m - b.m, a.s - b.s⟩

def meterU : MUnit := ⟨1, 0⟩

def secondU : MUnit := ⟨0, 1⟩

theorem MUnit.mul_comm (a b : MUnit) : a.mul b = b.mul a := by
  simp [MUnit.mul, Int.add_comm]

theorem MUnit.mul_div_cancel (a b : MUnit) : (a.mul b).div b = a := by
  simp [MUnit.mul, MUnit.div]

/-- Modelled from the spec: a value that may or may not carry a physical
unit, as the spec's design notes direct — a tagged union
{Plain(number), Quantity(number, unit)}.  A bare numeric value is treated
as dimensionless. -/
inductive MValue where
  | plain : ℚ → MValue
  | quantity : ℚ → MUnit → MValue
deriving DecidableEq

/-- Modelled from the spec: magnitude extraction on one maybe-unit-bearing
scalar — returns the bare numeric value of a scalar quantity or plain
number. -/
def magV : MValue → MValue
  | .plain x => .plain x
  | .quantity x _ => .plain x

def MValue.isPlain : MValue → Bool
  | .plain _ => true
  | .quantity _ _ => false

/-- Modelled from the spec: a label of a labeled sequence — numeric,
string, or physical-quantity key. -/
inductive Label where
  | num : ℚ → Label
  | str : String → Label
  | qty : ℚ → MUnit → Label
deriving DecidableEq

/-- Modelled from the spec: label equality is defined on numeric value,
ignoring wrapper type, when units match or are absent on both sides.  A
quantity key and its bare numeric magnitude address the same entry; two
quantity keys must agree on both magnitude and unit; string labels compare
as strings. -/
def labelEq : Label → Label → Bool
  | .num x, .num y => x == y
  | .num x, .qty y _ => x == y
  | .qty x _, .num y => x == y
  | .qty x u, .qty y v => x == y && u == v
  | .str a, .str b => a == b
  | _, _ => false

/-- Semantic subtype tag of a labeled sequence.  The spec: the subtype
determines display/plot conventions only — no structural difference. -/
inductive SeriesKind where
  | modsim
  | time
  | sweep
  | state
deriving DecidableEq

/-- Modelled from the spec: a labeled sequence (`ModSimSeries` and its
subtypes `TimeSeries`, `SweepSeries`, `State`): an ordered mapping from a
label to a maybe-unit-bearing value, with a semantic subtype tag. -/
structure ModSimSeries where
  kind : SeriesKind
  entries : List (Label × MValue)
deriving DecidableEq

/-- Lookup of the first entry whose label matches the key under the
spec's label-equality relation. -/
def lookupEntries (es : List (Label × MValue)) (k : Label) : Option MValue :=
  match es with
  | [] => none
  | p :: rest => if labelEq p.1 k then some p.2 else lookupEntries rest k

/-- Modelled from the spec: keyed lookup on a labeled sequence
(`s[k]`; attribute access `s.k` is an alias for the same label lookup).
An absent label yields `none`, modelling the distinguishable missing-key
error. -/
def ModSimSeries.get (s : ModSimSeries) (k : Label) : Option MValue :=
  lookupEntries s.entries k

/-- Assignment into the entry list: replace the value of the first entry
whose label matches the key (the stored label is kept, as index-based
assignment does not rewrite the index), else append a new entry. -/
def setEntries (es : List (Label × MValue)) (k : Label) (v : MValue) :
    List (Label × MValue) :=
  match es with
  | [] => [(k, v)]
  | p :: rest =>
      if labelEq p.1 k then (p.1, v) :: rest else p :: setEntries rest k v

/-- Modelled from the spec: keyed assignment `s[k] = v` on a labeled
sequence. -/
def ModSimSeries.set (s : ModSimSeries) (k : Label) (v : MValue) :
    ModSimSeries :=
  ⟨s.kind, setEntries s.entries k v⟩

/-- Modelled from the spec: an independent shallow copy of a labeled
sequence, preserving the concrete subtype. -/
def ModSimSeries.copy (s : ModSimSeries) : ModSimSeries :=
  ⟨s.kind, s.entries.map (fun p => (p.1, p.2))⟩

/-- Construction from a list of values with implicit integer labels
0, 1, 2, ... (as `ModSimSeries([1, 2, 3])` does). -/
def seriesOfValues (kind : SeriesKind) (vs : List ℚ) : ModSimSeries :=
  ⟨kind, (vs.enum.map (fun p => (Label.num (p.1 : ℚ), MValue.plain p.2)))⟩

/-- A label is compatible with unit `u` when it is not a quantity label of
a different unit: plain and string labels are always compatible, a
quantity label must carry exactly `u`. -/
def labelCompat (l : Label) (u : MUnit) : Bool :=
  match l with
  | .qty _ v => v == u
  | _ => true

/-- Semantic subtype tag of a labeled table. -/
inductive FrameKind where
  | modsim
  | time
  | sweep
deriving DecidableEq

/-- Modelled from the spec: a labeled table (`ModSimDataFrame` and its
subtypes `TimeFrame`, `SweepFrame`): an ordered mapping from a row label to
a row of cells, with a fixed set of named columns.  Invariant (spec): every
row has a value for every declared column. -/
structure ModSimDataFrame where
  kind : FrameKind
  columns : List String
  rows : List (Label × List MValue)
deriving DecidableEq

/-- Modelled from the spec: the semantic subtype of an extracted column —
a `TimeFrame` column is a `TimeSeries`, a `SweepFrame` column is a
`SweepSeries`. -/
def colKind : FrameKind → SeriesKind
  | .modsim => .modsim
  | .time => .time
  | .sweep => .sweep

/-- Modelled from the spec: the semantic subtype of a row obtained through
the explicit row accessor — a `TimeFrame` row is a `State`, a `SweepFrame`
row is a `SweepSeries`. -/
def rowKind : FrameKind → SeriesKind
  | .modsim => .modsim
  | .time => .state
  | .sweep => .sweep

/-- Position of the first column with the given name. -/
def findColIdx (c : String) : List String → Option Nat
  | [] => none
  | col :: cs => if col == c then some 0 else (findColIdx c cs).map (· + 1)

/-- Modelled from the spec: column extraction (`t[c]`, or attribute form
`t.c`, an alias for the same lookup): the labeled sequence mapping each row
label to that row's cell in column `c`, typed by the column axis. -/
def ModSimDataFrame.getColumn (f : ModSimDataFrame) (c : String) :
    Option ModSimSeries :=
  match findColIdx c f.columns with
  | none => none
  | some i =>
      some ⟨colKind f.kind,
            f.rows.filterMap (fun p => (p.2[i]?).map (fun v => (p.1, v)))⟩

/-- First row whose label matches the key under the spec's label
equality. -/
def findRowEntry (r : Label) : List (Label × List MValue) →
    Option (Label × List MValue)
  | [] => none
  | p :: rest => if labelEq p.1 r then some p else findRowEntry r rest

/-- Modelled from the spec: row extraction through the explicit row
accessor (`t.row[r]`): the labeled sequence mapping each declared column
name to the cell of the first row whose label matches `r`, typed by the
row axis. -/
def ModSimDataFrame.getRow (f : ModSimDataFrame) (r : Label) :
    Option ModSimSeries :=
  match findRowEntry r f.rows with
  | none => none
  | some p =>
      some ⟨rowKind f.kind,
            (f.columns.zip p.2).map (fun q => (Label.str q.1, q.2))⟩

/-- Modelled from the spec: an input of the unit-interop helpers — a bare
scalar, an array, a labeled sequence, or an array/sequence wrapped as a
whole in one quantity (all elements share one unit factored out). -/
inductive MData where
  | scalar : MValue → MData
  | array : List MValue → MData
  | series : ModSimSeries → MData
  | qarray : List ℚ → MUnit → MData
  | qseries : ModSimSeries → MUnit → MData
deriving DecidableEq

/-- Modelled from the spec: `magnitude(x)` returns the bare numeric value
of a scalar quantity or plain number; on a non-scalar input whose elements
may individually carry units it applies itself elementwise (preserving a
labeled sequence's label structure); on an input wrapped as a whole in a
quantity it divides out that one unit elementwise. -/
def magnitude : MData → MData
  | .scalar v => .scalar (magV v)
  | .array l => .array (l.map magV)
  | .series s => .series ⟨s.kind, s.entries.map (fun p => (p.1, magV p.2))⟩
  | .qarray l _ => .array (l.map MValue.plain)
  | .qseries s _ =>
      .series ⟨s.kind, s.entries.map (fun p => (p.1, magV p.2))⟩

/-- An input is already bare when no unit wrapper appears anywhere in it. -/
def MData.isBare : MData → Bool
  | .scalar v => v.isPlain
  | .array l => l.all MValue.isPlain
  | .series s => s.entries.all (fun p => p.2.isPlain)
  | .qarray _ _ => false
  | .qseries _ _ => false

/-- Result record of the root-finding wrappers, modelled from the spec:
the root plus convergence diagnostics (converged flag, iteration count,
message).  The wrapper always returns such a record — returning with
`converged = false` models reporting non-convergence instead of raising. -/
structure RootResult where
  root : ℚ
  converged : Bool
  iterations : Nat
  flag : String
deriving DecidableEq

/-- Bisection iteration on a bracket that straddles a sign change:
repeatedly halve the bracket, keeping the half across which the function
changes sign. -/
def bisectLoop (f : ℚ → ℚ) : Nat → ℚ → ℚ → ℚ
  | 0, a, b => (a + b) / 2
  | n + 1, a, b =>
      let mid := (a + b) / 2
      if f mid = 0 then mid
      else if f a * f mid < 0 then bisectLoop f n a mid
      else bisectLoop f n mid b

/-- Modelled from the spec: `root_bisect(f, [a, b])` — a bisection-style
root finder that, when the bracket does not contain a sign change
(`f(a)` and `f(b)` have the same nonzero sign), reports the failure as a
structured result with `converged = false` rather than raising; otherwise
it bisects and reports convergence. -/
def root_bisect (f : ℚ → ℚ) (a b : ℚ) (maxiter : Nat) : RootResult :=
  if 0 < f a * f b then
    ⟨0, false, 0, "bracket does not contain a sign change"⟩
  else
    ⟨bisectLoop f maxiter a b, true, maxiter, "converged"⟩

/-- Modelled from the spec: the component tuple of a vector — a
fixed-length numeric tuple of 2 or 3 components.  Components are real
numbers, embedding the floating-point components of the code. -/
inductive Vec where
  | two : ℝ → ℝ → Vec
  | three : ℝ → ℝ → ℝ → Vec

def Vec.dim : Vec → Nat
  | .two _ _ => 2
  | .three _ _ _ => 3

/-- Sum of squared components. -/
def Vec.mag2 : Vec → ℝ
  | .two x y => x * x + y * y
  | .three x y z => x * x + y * y + z * z

def Vec.scale (c : ℝ) : Vec → Vec
  | .two x y => .two (c * x) (c * y)
  | .three x y z => .three (c * x) (c * y) (c * z)

/-- A vector is zero when every component is zero. -/
def Vec.IsZero : Vec → Prop
  | .two x y => x = 0 ∧ y = 0
  | .three x y z => x = 0 ∧ y = 0 ∧ z = 0

/-- Modelled from the spec: a 2-D/3-D vector, optionally wrapped in a
quantity with one uniform unit across components; a plain numeric tuple is
the dimensionless case.  Scaling a vector by a unit tags it with that unit
and leaves the numeric components as its magnitudes. -/
structure ModSimVector where
  comps : Vec
  unit : MUnit

/-- A scalar result of a vector operation: a real value with its composed
unit (dimensionless for bare inputs). -/
structure RQuant where
  val : ℝ
  unit : MUnit

/-- Modelled from the spec: `vector_dot(v, w)` — the dot product, with the
product unit; dimension mismatch is an error (`none`). -/
def vector_dot (v w : ModSimVector) : Option RQuant :=
  match v.comps, w.comps with
  | .two x1 y1, .two x2 y2 =>
      some ⟨x1 * x2 + y1 * y2, v.unit.mul w.unit⟩
  | .three x1 y1 z1, .three x2 y2 z2 =>
      some ⟨x1 * x2 + y1 * y2 + z1 * z2, v.unit.mul w.unit⟩
  | _, _ => none

/-- Result of a cross product: a scalar (the 2-D case) or a vector (the
3-D case), either way carrying the product unit. -/
inductive CrossResult where
  | scalar : ℝ → MUnit → CrossResult
  | vec : Vec → MUnit → CrossResult

def CrossResult.unit : CrossResult → MUnit
  | .scalar _ u => u
  | .vec _ u => u

def CrossResult.isScalar : CrossResult → Bool
  | .scalar _ _ => true
  | .vec _ _ => false

def CrossResult.neg : CrossResult → CrossResult
  | .scalar a u => .scalar (-a) u
  | .vec c u => .vec (c.scale (-1)) u

/-- Modelled from the spec: `vector_cross(v, w)` — the cross of a 2-D pair
yields a scalar quantity of the product unit, not a vector; the cross of a
3-D pair yields a vector of the product unit; dimension mismatch is an
error (`none`). -/
def vector_cross (v w : ModSimVector) : Option CrossResult :=
  match v.comps, w.comps with
  | .two x1 y1, .two x2 y2 =>
      some (.scalar (x1 * y2 - y1 * x2) (v.unit.mul w.unit))
  | .three x1 y1 z1, .three x2 y2 z2 =>
      some (.vec (.three (y1 * z2 - z1 * y2) (z1 * x2 - x1 * z2)
                         (x1 * y2 - y1 * x2))
                 (v.unit.mul w.unit))
  | _, _ => none

/-- Modelled from the spec: `vector_mag(v)` — the magnitude, a scalar
quantity carrying the vector's unit.  The square root of the code is
embedded as the real square root. -/
noncomputable def vector_mag (v : ModSimVector) : RQuant :=
  ⟨Real.sqrt v.comps.mag2, v.unit⟩

/-- Division of a vector by a scalar quantity, checked: dividing by a zero
magnitude is the division-by-zero error (`none`); otherwise each component
is divided and the units are divided. -/
noncomputable def vdivQ (v : ModSimVector) (d : RQuant) :
    Option ModSimVector :=
  if d.val = 0 then none
  else some ⟨v.comps.scale (1 / d.val), v.unit.div d.unit⟩

/-- Modelled from the spec: `vector_hat(v)` — the unit vector in the
direction of `v`, i.e. `v` divided by its magnitude; on a zero-magnitude
vector it returns the zero vector itself (same shape) instead of dividing
by zero. -/
noncomputable def vector_hat (v : ModSimVector) : Option ModSimVector :=
  if (vector_mag v).val = 0 then some v
  else vdivQ v (vector_mag v)

/-- Modelled from the spec: `scalar_proj(v, w)` — the signed length of the
projection of `v` onto `w`: the dot product divided by the magnitude of
`w` (so the unit is the dot's unit divided by `w`'s unit). -/
noncomputable def scalar_proj (v w : ModSimVector) : Option RQuant :=
  (vector_dot v w).map
    (fun d => ⟨d.val / Real.sqrt w.comps.mag2, d.unit.div w.unit⟩)

/-- Two-argument arctangent, embedding `np.arctan2(y, x)`. -/
noncomputable def atan2 (y x : ℝ) : ℝ :=
  if 0 < x then Real.arctan (y / x)
  else if x < 0 then
    (if 0 ≤ y then Real.arctan (y / x) + Real.pi
     else Real.arctan (y / x) - Real.pi)
  else
    (if 0 < y then Real.pi / 2 else if y < 0 then -(Real.pi / 2) else 0)

/-- Modelled from the spec: `vector_angle(v)` — the angle of a 2-D vector
(`arctan2` of its components); defined for 2-D only. -/
noncomputable def vector_angle (v : ModSimVector) : Option ℝ :=
  match v.comps with
  | .two x y => some (atan2 y x)
  | _ => none

/-- Modelled from the spec: `vector_diff_angle(v, w)` — the angle of `v`
minus the angle of `w`, a dimensionless angle; defined for 2-D only (the
3-D case is not implemented, `none`). -/
noncomputable def vector_diff_angle (v w : ModSimVector) : Option RQuant :=
  match vector_angle v, vector_angle w with
  | some a, some b => some ⟨a - b, MUnit.one⟩
  | _, _ => none

/-- Negation of a scalar result (the unit is unchanged). -/
def RQuant.negV (r : RQuant) : RQuant := ⟨-r.val, r.unit⟩

/-- Concrete error function used by the test suite:
f(x) = (x - 1)(x - 2)(x - 3). -/
def cubicF (x : ℚ) : ℚ := (x - 1) * (x - 2) * (x - 3)

/-- Concrete one-column time frame used as a witness input. -/
def tframeW : ModSimDataFrame :=
  ⟨.time, ["A"], [(.num 0, [.plain 1])]⟩

/-- Concrete one-column sweep frame used as a witness input. -/
def sframeW : ModSimDataFrame :=
  ⟨.sweep, ["A"], [(.num 0, [.plain 1])]⟩

/-- Concrete three-column frame used as a witness input, mirroring the
test suite's `ModSimDataFrame(columns=["A", "T", "dt"])` with two rows. -/
def frameW : ModSimDataFrame :=
  ⟨.modsim, ["A", "T", "dt"],
   [(.num 1000, [.plain 1, .plain 2, .plain 0]),
    (.str "label", [.plain 4, .plain 5, .plain 6])]⟩

theorem magV_magV (v : MValue) : magV (magV v) = magV v := by
  cases v <;> rfl

theorem magV_of_isPlain (v : MValue) (h : v.isPlain = true) : magV v = v := by
  cases v <;> simp_all [MValue.isPlain, magV]

theorem map_magV_idem (l : List MValue) :
    (l.map magV).map magV = l.map magV := by
  induction l with
  | nil => rfl
  | cons a l ih => simp [magV_magV, ih]

theorem map_entry_magV_idem (es : List (Label × MValue)) :
    (es.map (fun p => (p.1, magV p.2))).map (fun p => (p.1, magV p.2)) =
      es.map (fun p => (p.1, magV p.2)) := by
  induction es with
  | nil => rfl
  | cons a es ih => simp [magV_magV, ih]

theorem map_plain_magV (l : List ℚ) :
    (l.map MValue.plain).map magV = l.map MValue.plain := by
  induction l with
  | nil => rfl
  | cons a l ih => simp [magV, ih]

theorem map_magV_of_all_plain (l : List MValue)
    (h : l.all MValue.isPlain = true) : l.map magV = l := by
  induction l with
  | nil => rfl
  | cons a l ih =>
      simp only [List.all_cons, Bool.and_eq_true] at h
      simp [magV_of_isPlain a h.1, ih h.2]

theorem map_entry_magV_of_all_plain (es : List (Label × MValue))
    (h : es.all (fun p => p.2.isPlain) = true) :
    es.map (fun p => (p.1, magV p.2)) = es := by
  induction es with
  | nil => rfl
  | cons a es ih =>
      simp only [List.all_cons, Bool.and_eq_true] at h
      simp [magV_of_isPlain a.2 h.1, ih h.2]

theorem labelEq_num_of_compat (l : Label) (q : ℚ) (u : MUnit)
    (h : labelCompat l u = true) :
    labelEq l (.num q) = labelEq l (.qty q u) := by
  cases l with
  | num x => rfl
  | str a => rfl
  | qty x w =>
      have hw : w = u := by simpa [labelCompat] using h
      subst hw
      simp [labelEq]

theorem lookup_set_qty (es : List (Label × MValue)) (q : ℚ) (u : MUnit)
    (v : MValue) (h : ∀ p ∈ es, labelCompat p.1 u = true) :
    lookupEntries (setEntries es (.qty q u) v) (.qty q u) = some v ∧
    lookupEntries (setEntries es (.qty q u) v) (.num q) = some v := by
  induction es with
  | nil => constructor <;> simp [setEntries, lookupEntries, labelEq]
  | cons p rest ih =>
      have hp : labelCompat p.1 u = true := h p (by simp)
      have hrest : ∀ p ∈ rest, labelCompat p.1 u = true :=
        fun p hmem => h p (by simp [hmem])
      by_cases hm : labelEq p.1 (.qty q u) = true
      · have hm' : labelEq p.1 (.num q) = true := by
          rw [labelEq_num_of_compat p.1 q u hp]; exact hm
        constructor <;> simp [setEntries, hm, lookupEntries, hm']
      · have hmf : labelEq p.1 (.qty q u) = false := by simpa using hm
        have hm' : labelEq p.1 (.num q) = false := by
          rw [labelEq_num_of_compat p.1 q u hp]; exact hmf
        have hih := ih hrest
        constructor <;>
          simp [setEntries, hmf, lookupEntries, hm', hih.1, hih.2]

/-- C1: root-finding on a bracket on which the scalar error function does
not change sign returns a structured result whose converged flag is False;
the wrapper is a total function, so no exception is raised. -/
theorem root_bisect_no_sign_change (f : ℚ → ℚ) (a b : ℚ) (n : Nat)
    (hab : a ≤ b)
    (hsign : ∀ x, a ≤ x → x ≤ b → 0 < f a * f x) :
    (root_bisect f a b n).converged = false := by
  have hb : 0 < f a * f b := hsign b hab le_rfl
  simp [root_bisect, hb]

/-- Witness for C1 at the test suite's input: f(x) = (x-1)(x-2)(x-3) on
the bracket [0, 0.5], where f is strictly negative. -/
theorem root_bisect_no_sign_change_witness :
    (root_bisect cubicF 0 (1 / 2) 100).converged = false := by
  apply root_bisect_no_sign_change cubicF 0 (1 / 2) 100 (by norm_num)
  intro x hx0 hx2
  have h1 : (0:ℚ) < 1 - x := by linarith
  have h2 : (0:ℚ) < 2 - x := by linarith
  have h3 : (0:ℚ) < 3 - x := by linarith
  have hp : (0:ℚ) < (1 - x) * ((2 - x) * (3 - x)) :=
    mul_pos h1 (mul_pos h2 h3)
  show 0 < cubicF 0 * cubicF x
  simp only [cubicF]
  nlinarith [hp]

/-- C2: after assigning through a unit-bearing label, lookup by the
quantity key and lookup by its bare numeric magnitude resolve to the same
entry, whenever every quantity label of the sequence carries the matching
unit (units match or are absent on both sides). -/
theorem series_unit_label_lookup (s : ModSimSeries) (q : ℚ) (u : MUnit)
    (v : MValue)
    (h : ∀ p ∈ s.entries, labelCompat p.1 u = true) :
    (s.set (.qty q u) v).get (.qty q u) = some v ∧
    (s.set (.qty q u) v).get (.num q) = some v :=
  lookup_set_qty s.entries q u v h

/-- Witness for C2 at the test suite's input: s = ModSimSeries([1, 2, 3]),
s[Quantity(2, meter)] = 4, then both s[Quantity(2, meter)] and s[2]
return 4. -/
theorem series_unit_label_lookup_witness :
    ((seriesOfValues .modsim [1, 2, 3]).set (.qty 2 meterU)
        (.plain 4)).get (.qty 2 meterU) = some (.plain 4) ∧
    ((seriesOfValues .modsim [1, 2, 3]).set (.qty 2 meterU)
        (.plain 4)).get (.num 2) = some (.plain 4) :=
  series_unit_label_lookup _ 2 meterU _ (by decide)

/-- C4: magnitude extraction is idempotent —
magnitude(magnitude(x)) = magnitude(x) — for bare scalars, arrays, labeled
sequences, and any of these carrying units; applying it to an already-bare
value is a no-op. -/
theorem magnitude_idempotent (x : MData) :
    magnitude (magnitude x) = magnitude x ∧
    (x.isBare = true → magnitude x = x) := by
  constructor
  · cases x with
    | scalar v => simp only [magnitude]; rw [magV_magV]
    | array l => simp only [magnitude]; rw [map_magV_idem]
    | series s => simp only [magnitude]; rw [map_entry_magV_idem]
    | qarray l u => simp only [magnitude]; rw [map_plain_magV]
    | qseries s u => simp only [magnitude]; rw [map_entry_magV_idem]
  · intro hb
    cases x with
    | scalar v =>
        have : v.isPlain = true := by simpa [MData.isBare] using hb
        simp [magnitude, magV_of_isPlain v this]
    | array l =>
        have : l.all MValue.isPlain = true := by
          simpa [MData.isBare] using hb
        simp [magnitude, map_magV_of_all_plain l this]
    | series s =>
        have : s.entries.all (fun p => p.2.isPlain) = true := by
          simpa [MData.isBare] using hb
        simp [magnitude, map_entry_magV_of_all_plain s.entries this]
    | qarray l u => simp [MData.isBare] at hb
    | qseries s u => simp [MData.isBare] at hb

/-- Witness for C4 at a concrete bare array. -/
theorem magnitude_idempotent_witness :
    magnitude (magnitude (MData.array [.plain 1, .plain 2])) =
      magnitude (MData.array [.plain 1, .plain 2]) ∧
    magnitude (MData.array [.plain 1, .plain 2]) =
      MData.array [.plain 1, .plain 2] :=
  ⟨(magnitude_idempotent _).1, (magnitude_idempotent _).2 (by decide)⟩

/-- C9: copying a labeled-sequence subtype yields a sequence with the same
concrete subtype tag and the same contents (independence of the copy is a
mutation property with no counterpart on pure values). -/
theorem series_copy_preserves (s : ModSimSeries) :
    s.copy.kind = s.kind ∧ s.copy.entries = s.entries := by
  refine ⟨rfl, ?_⟩
  simp [ModSimSeries.copy]

theorem findColIdx_lt_length (c : String) (cols : List String) (i : Nat)
    (h : findColIdx c cols = some i) : i < cols.length := by
  induction cols generalizing i with
  | nil => simp [findColIdx] at h
  | cons col cs ih =>
      by_cases hc : (col == c) = true
      · simp [findColIdx, hc] at h
        simp [← h]
      · simp [findColIdx, hc] at h
        obtain ⟨j, hj, hji⟩ := h
        have := ih j hj
        simp only [List.length_cons]
        omega

theorem findRowEntry_mem (r : Label) (rows : List (Label × List MValue))
    (p : Label × List MValue) (h : findRowEntry r rows = some p) :
    p ∈ rows := by
  induction rows with
  | nil => simp [findRowEntry] at h
  | cons q rest ih =>
      by_cases hm : labelEq q.1 r = true
      · simp [findRowEntry, hm] at h
        simp [← h]
      · simp [findRowEntry, hm] at h
        exact List.mem_cons_of_mem q (ih h)

theorem lookup_zip_columns (cols : List String) (cells : List MValue)
    (c : String) (i : Nat) (hlen : cells.length = cols.length)
    (hidx : findColIdx c cols = some i) :
    lookupEntries ((cols.zip cells).map (fun q => (Label.str q.1, q.2)))
      (.str c) = cells[i]? := by
  induction cols generalizing cells i with
  | nil => simp [findColIdx] at hidx
  | cons col cs ih =>
      cases cells with
      | nil => simp at hlen
      | cons v vs =>
          simp only [List.length_cons] at hlen
          by_cases hc : (col == c) = true
          · simp [findColIdx, hc] at hidx
            simp [← hidx, List.zip_cons_cons, lookupEntries, labelEq, hc]
          · simp [findColIdx, hc] at hidx
            obtain ⟨j, hj, hji⟩ := hidx
            rw [← hji]
            simp [List.zip_cons_cons, lookupEntries, labelEq, hc]
            simpa using ih vs j (by omega) hj

theorem lookup_filterMap_col (rows : List (Label × List MValue)) (i : Nat)
    (r : Label) (n : Nat) (hw : ∀ p ∈ rows, p.2.length = n) (hi : i < n) :
    lookupEntries
      (rows.filterMap (fun p => (p.2[i]?).map (fun v => (p.1, v)))) r =
    (findRowEntry r rows).bind (fun p => p.2[i]?) := by
  induction rows with
  | nil => simp [findRowEntry, lookupEntries]
  | cons p rest ih =>
      have hlen : p.2.length = n := hw p (by simp)
      have hi' : i < p.2.length := by omega
      have hwc : p.2[i]? = some (p.2.get ⟨i, hi'⟩) :=
        List.getElem?_eq_getElem hi'
      have hrest : ∀ q ∈ rest, q.2.length = n :=
        fun q hq => hw q (by simp [hq])
      by_cases hm : labelEq p.1 r = true
      · simp [List.filterMap_cons, hwc, lookupEntries, hm, findRowEntry]
      · have hmf : labelEq p.1 r = false := by simpa using hm
        simp [List.filterMap_cons, hwc, lookupEntries, hmf, findRowEntry,
              ih hrest]

/-- C7: on every labeled table, for every declared column and every
present row label, row-then-column addressing equals column-then-row
addressing — t.row[r][c] = t[c][r] (attribute access is an alias for the
same label lookup on either axis). -/
theorem frame_row_col_addressing (f : ModSimDataFrame) (c : String)
    (r : Label) (colS rowS : ModSimSeries)
    (hw : ∀ p ∈ f.rows, p.2.length = f.columns.length)
    (hcol : f.getColumn c = some colS)
    (hrow : f.getRow r = some rowS) :
    rowS.get (.str c) = colS.get r := by
  unfold ModSimDataFrame.getColumn at hcol
  unfold ModSimDataFrame.getRow at hrow
  cases hidx : findColIdx c f.columns with
  | none => rw [hidx] at hcol; simp at hcol
  | some i =>
      rw [hidx] at hcol
      simp only [Option.some.injEq] at hcol
      cases hfr : findRowEntry r f.rows with
      | none => rw [hfr] at hrow; simp at hrow
      | some p =>
          rw [hfr] at hrow
          simp only [Option.some.injEq] at hrow
          have hpmem : p ∈ f.rows := findRowEntry_mem r f.rows p hfr
          have hplen : p.2.length = f.columns.length := hw p hpmem
          have hi : i < f.columns.length := findColIdx_lt_length c _ i hidx
          rw [← hcol, ← hrow]
          show lookupEntries
              ((f.columns.zip p.2).map (fun q => (Label.str q.1, q.2)))
              (.str c) =
            lookupEntries
              (f.rows.filterMap
                (fun p => (p.2[i]?).map (fun v => (p.1, v)))) r
          rw [lookup_zip_columns f.columns p.2 c i hplen hidx]
          rw [lookup_filterMap_col f.rows i r f.columns.length hw hi]
          rw [hfr]
          rfl

/-- Witness for C7 at the test suite's frame (columns A, T, dt; rows 1000
and "label"), at column T and row 1000. -/
theorem frame_row_col_addressing_witness :
    ModSimSeries.get
        ⟨.modsim, [(.str "A", .plain 1), (.str "T", .plain 2),
                   (.str "dt", .plain 0)]⟩ (.str "T") =
    ModSimSeries.get
        ⟨.modsim, [(.num 1000, .plain 2), (.str "label", .plain 5)]⟩
        (.num 1000) :=
  frame_row_col_addressing frameW "T" (.num 1000) _ _ (by decide)
    (by decide) (by decide)

/-- C8: extraction from a labeled table returns the semantic subtype of
the corresponding axis: a TimeFrame column is a TimeSeries and a TimeFrame
row is a State; a SweepFrame column and a SweepFrame row are both
SweepSeries. -/
theorem frame_extraction_subtypes (f : ModSimDataFrame) (c : String)
    (r : Label) (cs rs : ModSimSeries)
    (hc : f.getColumn c = some cs) (hr : f.getRow r = some rs) :
    (f.kind = .time → cs.kind = .time ∧ rs.kind = .state) ∧
    (f.kind = .sweep → cs.kind = .sweep ∧ rs.kind = .sweep) := by
  have hck : cs.kind = colKind f.kind := by
    unfold ModSimDataFrame.getColumn at hc
    cases hidx : findColIdx c f.columns with
    | none => rw [hidx] at hc; simp at hc
    | some i =>
        rw [hidx] at hc
        simp only [Option.some.injEq] at hc
        rw [← hc]
  have hrk : rs.kind = rowKind f.kind := by
    unfold ModSimDataFrame.getRow at hr
    cases hfr : findRowEntry r f.rows with
    | none => rw [hfr] at hr; simp at hr
    | some p =>
        rw [hfr] at hr
        simp only [Option.some.injEq] at hr
        rw [← hr]
  constructor
  · intro hk; rw [hck, hrk, hk]; exact ⟨rfl, rfl⟩
  · intro hk; rw [hck, hrk, hk]; exact ⟨rfl, rfl⟩

/-- Witness for C8: a concrete TimeFrame and a concrete SweepFrame, one
column and one row extracted from each. -/
theorem frame_extraction_subtypes_witness :
    (tframeW.getColumn "A").map ModSimSeries.kind = some SeriesKind.time ∧
    (tframeW.getRow (.num 0)).map ModSimSeries.kind =
      some SeriesKind.state ∧
    (sframeW.getColumn "A").map ModSimSeries.kind = some SeriesKind.sweep ∧
    (sframeW.getRow (.num 0)).map ModSimSeries.kind =
      some SeriesKind.sweep := by
  have hct : tframeW.getColumn "A" =
      some ⟨.time, [(.num 0, .plain 1)]⟩ := by decide
  have hrt : tframeW.getRow (.num 0) =
      some ⟨.state, [(.str "A", .plain 1)]⟩ := by decide
  have hcs : sframeW.getColumn "A" =
      some ⟨.sweep, [(.num 0, .plain 1)]⟩ := by decide
  have hrs : sframeW.getRow (.num 0) =
      some ⟨.sweep, [(.str "A", .plain 1)]⟩ := by decide
  have h1 := (frame_extraction_subtypes tframeW "A" (.num 0) _ _
      hct hrt).1 rfl
  have h2 := (frame_extraction_subtypes sframeW "A" (.num 0) _ _
      hcs hrs).2 rfl
  rw [hct, hrt, hcs, hrs]
  simp [h1.1, h1.2, h2.1, h2.2]

/-- C3: the cross product anticommutes — vector_cross(w, v) is the
negation of vector_cross(v, w) — for 2-D and 3-D pairs, plain or
unit-bearing; the result carries the product unit, and the cross of a 2-D
pair is a scalar of the product unit, not a vector. -/
theorem vector_cross_anticomm (v w : ModSimVector) (r : CrossResult)
    (h : vector_cross v w = some r) :
    vector_cross w v = some r.neg ∧
    r.unit = v.unit.mul w.unit ∧
    (v.comps.dim = 2 → r.isScalar = true) := by
  obtain ⟨vc, vu⟩ := v
  obtain ⟨wc, wu⟩ := w
  cases vc with
  | two x1 y1 =>
      cases wc with
      | two x2 y2 =>
          simp only [vector_cross, Option.some.injEq] at h
          subst h
          refine ⟨?_, rfl, fun _ => rfl⟩
          simp only [vector_cross, CrossResult.neg, Option.some.injEq,
                     CrossResult.scalar.injEq]
          exact ⟨by ring, MUnit.mul_comm wu vu⟩
      | three _ _ _ => simp [vector_cross] at h
  | three x1 y1 z1 =>
      cases wc with
      | two _ _ => simp [vector_cross] at h
      | three x2 y2 z2 =>
          simp only [vector_cross, Option.some.injEq] at h
          subst h
          refine ⟨?_, rfl, ?_⟩
          · simp only [vector_cross, CrossResult.neg, Vec.scale,
                       Option.some.injEq, CrossResult.vec.injEq,
                       Vec.three.injEq]
            exact ⟨⟨by ring, by ring, by ring⟩, MUnit.mul_comm wu vu⟩
          · intro hd
            simp [Vec.dim] at hd

/-- Witness for C3 at the test suite's 2-D input: v = Vector(3, 4)·meter,
w = Vector(5, 6)/second; the cross is the scalar -2 with unit
meter/second. -/
theorem vector_cross_anticomm_witness :
    vector_cross ⟨.two 3 4, meterU⟩ ⟨.two 5 6, MUnit.mk 0 (-1)⟩ =
      some (.scalar (-2) (MUnit.mk 1 (-1))) ∧
    vector_cross ⟨.two 5 6, MUnit.mk 0 (-1)⟩ ⟨.two 3 4, meterU⟩ =
      some ((CrossResult.scalar (-2) (MUnit.mk 1 (-1))).neg) ∧
    (CrossResult.scalar (-2) (MUnit.mk 1 (-1))).unit =
      meterU.mul (MUnit.mk 0 (-1)) ∧
    (CrossResult.scalar (-2) (MUnit.mk 1 (-1))).isScalar = true := by
  have h : vector_cross ⟨.two 3 4, meterU⟩ ⟨.two 5 6, MUnit.mk 0 (-1)⟩ =
      some (.scalar (-2) (MUnit.mk 1 (-1))) := by
    simp only [vector_cross, meterU, MUnit.mul, Option.some.injEq,
               CrossResult.scalar.injEq]
    norm_num
  have hp := vector_cross_anticomm _ _ _ h
  exact ⟨h, hp.1, hp.2.1, hp.2.2 rfl⟩

/-- C5: vector_hat on a zero-magnitude vector returns the (zero) vector
itself — same shape, all components zero — and never reaches the checked
division, so no division-by-zero error is raised. -/
theorem vector_hat_zero (v : ModSimVector) (h : v.comps.IsZero) :
    vector_hat v = some v := by
  have h2 : v.comps.mag2 = 0 := by
    cases hc : v.comps with
    | two x y =>
        rw [hc] at h
        obtain ⟨hx, hy⟩ := h
        simp [Vec.mag2, hx, hy]
    | three x y z =>
        rw [hc] at h
        obtain ⟨hx, hy, hz⟩ := h
        simp [Vec.mag2, hx, hy, hz]
  have hm : (vector_mag v).val = 0 := by
    simp [vector_mag, h2]
  simp [vector_hat, hm]

/-- Witness for C5 at the test suite's input Vector(0, 0)·meter. -/
theorem vector_hat_zero_witness :
    vector_hat ⟨.two 0 0, meterU⟩ = some ⟨.two 0 0, meterU⟩ :=
  vector_hat_zero ⟨.two 0 0, meterU⟩ ⟨rfl, rfl⟩

/-- C6: scalar_proj is not symmetric: at v = [3, 4], w = [5, 6],
scalar_proj(v, w) = 39/√61 (≈ 4.9934) differs from
scalar_proj(w, v) = 39/5 = 7.8, and the asymmetry is preserved when v
carries the meter unit. -/
theorem scalar_proj_asymmetric :
    scalar_proj ⟨.two 3 4, MUnit.one⟩ ⟨.two 5 6, MUnit.one⟩ ≠
      scalar_proj ⟨.two 5 6, MUnit.one⟩ ⟨.two 3 4, MUnit.one⟩ ∧
    scalar_proj ⟨.two 5 6, MUnit.one⟩ ⟨.two 3 4, MUnit.one⟩ =
      some ⟨39 / 5, MUnit.one⟩ ∧
    scalar_proj ⟨.two 3 4, MUnit.one⟩ ⟨.two 5 6, MUnit.one⟩ =
      some ⟨39 / Real.sqrt 61, MUnit.one⟩ ∧
    (4.99 : ℝ) < 39 / Real.sqrt 61 ∧ (39 : ℝ) / Real.sqrt 61 < 5 ∧
    scalar_proj ⟨.two 3 4, meterU⟩ ⟨.two 5 6, MUnit.one⟩ ≠
      scalar_proj ⟨.two 5 6, MUnit.one⟩ ⟨.two 3 4, meterU⟩ := by
  have h25 : Real.sqrt ((3:ℝ) * 3 + 4 * 4) = 5 := by
    rw [show (3:ℝ) * 3 + 4 * 4 = 5 ^ 2 by norm_num]
    exact Real.sqrt_sq (by norm_num)
  have h61 : ((5:ℝ) * 5 + 6 * 6) = 61 := by norm_num
  have hpos : (0:ℝ) < Real.sqrt 61 := Real.sqrt_pos.mpr (by norm_num)
  have hvw : scalar_proj ⟨.two 3 4, MUnit.one⟩ ⟨.two 5 6, MUnit.one⟩ =
      some ⟨39 / Real.sqrt 61, MUnit.one⟩ := by
    simp only [scalar_proj, vector_dot, Option.map_some', Vec.mag2, h61,
               Option.some.injEq, RQuant.mk.injEq, MUnit.one, MUnit.mul,
               MUnit.div]
    norm_num
  have hwv : scalar_proj ⟨.two 5 6, MUnit.one⟩ ⟨.two 3 4, MUnit.one⟩ =
      some ⟨39 / 5, MUnit.one⟩ := by
    simp only [scalar_proj, vector_dot, Option.map_some', Vec.mag2, h25,
               Option.some.injEq, RQuant.mk.injEq, MUnit.one, MUnit.mul,
               MUnit.div]
    norm_num
  have hvmw : scalar_proj ⟨.two 3 4, meterU⟩ ⟨.two 5 6, MUnit.one⟩ =
      some ⟨39 / Real.sqrt 61, meterU⟩ := by
    simp only [scalar_proj, vector_dot, Option.map_some', Vec.mag2, h61,
               Option.some.injEq, RQuant.mk.injEq, MUnit.one, MUnit.mul,
               MUnit.div, meterU]
    norm_num
  have hwvm : scalar_proj ⟨.two 5 6, MUnit.one⟩ ⟨.two 3 4, meterU⟩ =
      some ⟨39 / 5, MUnit.one⟩ := by
    simp only [scalar_proj, vector_dot, Option.map_some', Vec.mag2, h25,
               Option.some.injEq, RQuant.mk.injEq, MUnit.one, MUnit.mul,
               MUnit.div, meterU]
    norm_num
  have hsqrtne : Real.sqrt 61 ≠ 5 := by
    intro he
    have hsq : Real.sqrt 61 ^ 2 = 61 := Real.sq_sqrt (by norm_num)
    rw [he] at hsq
    norm_num at hsq
  have hvalne : (39:ℝ) / Real.sqrt 61 ≠ 39 / 5 := by
    intro he
    apply hsqrtne
    have h5 : (5:ℝ) ≠ 0 := by norm_num
    have := (div_eq_div_iff (ne_of_gt hpos) h5).mp he
    linarith
  have hup : Real.sqrt 61 < 7.811 :=
    (Real.sqrt_lt' (by norm_num)).mpr (by norm_num)
  have hlow : (7.8:ℝ) < Real.sqrt 61 :=
    (Real.lt_sqrt (by norm_num)).mpr (by norm_num)
  refine ⟨?_, hwv, hvw, ?_, ?_, ?_⟩
  · rw [hvw, hwv]
    simp only [ne_eq, Option.some.injEq, RQuant.mk.injEq, and_true]
    exact hvalne
  · rw [show (4.99:ℝ) = 39 / (39 / 4.99) by norm_num]
    apply div_lt_div_of_pos_left (by norm_num) hpos
    calc Real.sqrt 61 < 7.811 := hup
    _ < 39 / 4.99 := by norm_num
  · rw [div_lt_iff₀ hpos]
    nlinarith [hlow]
  · rw [hvmw, hwvm]
    simp only [ne_eq, Option.some.injEq, RQuant.mk.injEq]
    intro hh
    exact hvalne hh.1

/-- C10: for non-zero 2-D vectors, vector_diff_angle is antisymmetric —
vector_diff_angle(v, w) = -vector_diff_angle(w, v) — its result is a
dimensionless angle, and it is unchanged when both inputs are scaled by
the same unit (the unit cancels). -/
theorem vector_diff_angle_antisymmetric (x1 y1 x2 y2 : ℝ)
    (uv uw u : MUnit)
    (h1 : ¬(x1 = 0 ∧ y1 = 0)) (h2 : ¬(x2 = 0 ∧ y2 = 0)) :
    vector_diff_angle ⟨.two x1 y1, uv⟩ ⟨.two x2 y2, uw⟩ =
      (vector_diff_angle ⟨.two x2 y2, uw⟩ ⟨.two x1 y1, uv⟩).map
        RQuant.negV ∧
    (vector_diff_angle ⟨.two x1 y1, uv⟩ ⟨.two x2 y2, uw⟩).map
      RQuant.unit = some MUnit.one ∧
    vector_diff_angle ⟨.two x1 y1, uv.mul u⟩ ⟨.two x2 y2, uw.mul u⟩ =
      vector_diff_angle ⟨.two x1 y1, uv⟩ ⟨.two x2 y2, uw⟩ := by
  refine ⟨?_, rfl, rfl⟩
  simp only [vector_diff_angle, vector_angle, Option.map_some',
             RQuant.negV]
  rw [neg_sub]

/-- Witness for C10 at the test suite's input v = [3, 4], w = [5, 6],
scaled by the meter unit. -/
theorem vector_diff_angle_antisymmetric_witness :
    vector_diff_angle ⟨.two 3 4, MUnit.one⟩ ⟨.two 5 6, MUnit.one⟩ =
      (vector_diff_angle ⟨.two 5 6, MUnit.one⟩
        ⟨.two 3 4, MUnit.one⟩).map RQuant.negV ∧
    (vector_diff_angle ⟨.two 3 4, MUnit.one⟩
        ⟨.two 5 6, MUnit.one⟩).map RQuant.unit = some MUnit.one ∧
    vector_diff_angle ⟨.two 3 4, MUnit.one.mul meterU⟩
        ⟨.two 5 6, MUnit.one.mul meterU⟩ =
      vector_diff_angle ⟨.two 3 4, MUnit.one⟩ ⟨.two 5 6, MUnit.one⟩ :=
  vector_diff_angle_antisymmetric 3 4 5 6 MUnit.one MUnit.one meterU
    (by norm_num) (by norm_num)
